import Mathlib

/-!
Shallow embedding of `src/BerghainSolver.py`: the decision engine of the
Berghain admission solver (`run_game` and its local helpers).

Modelling conventions:
* attribute names are an arbitrary type `α` with decidable equality;
* Python dicts keyed by attributes become functions out of `α`;
* a candidate's attribute dict becomes `α → Option Bool`, with
  `A.get(a, False)` read through `carries` (missing key defaults to false);
* Python floats (relative frequencies, the derived ratios and the
  literals 0.10, 0.9, 1.02, -5) are modelled as rationals;
* Python ints are `Int` (quota counts, `N`, `need_rem`) or `Nat`
  (counters that only ever increase from zero).
-/

/-- A candidate's attribute map (`nxt["attributes"]` in the source): a
partial boolean assignment, missing keys allowed. -/
abbrev Cand (α : Type) := α → Option Bool

/-- `attr_dict.get(a, False)`: a missing key reads as `false`. -/
def carries {α : Type} (A : Cand α) (a : α) : Bool := (A a).getD false

/-- Immutable per-run data built once from the game-start response:
`attrs` (the constraint dict's keys), capacity `N`, the original quota
`need_orig`, and the relative frequencies (`rel_f.get(a, 0.0) or 0.0`
folded into a total function). -/
structure Config (α : Type) where
  attrs : List α
  N : ℤ
  need_orig : α → ℤ
  relF : α → ℚ

/-- The mutable state of the `run_game` loop. -/
structure St (α : Type) where
  processed : ℕ
  admitted : ℕ
  seen_true : α → ℕ
  admit_true : α → ℕ
  need_rem : α → ℤ
  rare_traits : α → Bool

/-- The reason labels attached to verdicts in `run_game`. -/
inductive Reason
  | fill_after_constraints
  | risk_block
  | overfill_guard
  | multi_trait_boost
  | budget_rescue
  | rare_trait_boost
  | standard_help
  | no_help
deriving DecidableEq

/-- Rarity classification (source lines 67-75): rare when `p <= 0.10`,
otherwise when `p > 0.0` and `need_orig[a] / N >= 0.9 * p`. -/
def rareCalc {α : Type} (cfg : Config α) (a : α) : Bool :=
  let p := cfg.relF a
  if p ≤ 1/10 then true
  else decide (0 < p) && decide ((9 : ℚ)/10 * p ≤ (cfg.need_orig a : ℚ) / (cfg.N : ℚ))

/-- The loop state right before the first candidate: all counters zero,
`need_rem` a copy of `need_orig`, `rare_traits` computed once. -/
def initState {α : Type} (cfg : Config α) : St α :=
  { processed := 0
    admitted := 0
    seen_true := fun _ => 0
    admit_true := fun _ => 0
    need_rem := cfg.need_orig
    rare_traits := fun a => rareCalc cfg a }

/-- `projected_deltas` (source lines 78-85):
`Δ[a] = seen_true[a] + slots_left * p_a - need_rem[a]`. -/
def projected_deltas {α : Type} (cfg : Config α) (s : St α) (slots_left : ℤ) (a : α) : ℚ :=
  (s.seen_true a : ℚ) + (slots_left : ℚ) * cfg.relF a - (s.need_rem a : ℚ)

/-- `multi_trait_hits` (source lines 88-89): attributes the candidate
carries whose quota is still unmet. -/
def multi_trait_hits {α : Type} (cfg : Config α) (s : St α) (A : Cand α) : List α :=
  cfg.attrs.filter fun a => carries A a && decide (0 < s.need_rem a)

/-- `AT_RISK` (source line 127): attributes whose projected delta is
below the `-5` tolerance. -/
def atRiskList {α : Type} (cfg : Config α) (s : St α) (slots_left : ℤ) : List α :=
  cfg.attrs.filter fun a => decide (projected_deltas cfg s slots_left a < -5)

/-- `overfilled_hit` (source line 131): some hit attribute with positive
quota already has `admit_true[a] >= 1.02 * need_orig[a]`. -/
def overfilledHit {α : Type} (cfg : Config α) (s : St α) (hits : List α) : Bool :=
  hits.any fun a =>
    decide (0 < cfg.need_orig a) &&
      decide ((102 : ℚ)/100 * (cfg.need_orig a : ℚ) ≤ (s.admit_true a : ℚ))

/-- `budget_rescue` (source lines 137-148): some hit attribute with
remaining need whose observed admit ratio lags 90% of the target ratio. -/
def budgetRescue {α : Type} (cfg : Config α) (s : St α) (hits : List α) : Bool :=
  hits.any fun a =>
    decide (0 < s.need_rem a) &&
      decide ((s.admit_true a : ℚ) / (max 1 (s.seen_true a) : ℚ) <
        (9 : ℚ)/10 * ((cfg.need_orig a : ℚ) / max 1 ((cfg.N : ℚ) * cfg.relF a)))

/-- `rare_boost` (source line 151): the candidate carries some rare
attribute whose quota is still unmet. -/
def rareBoost {α : Type} (cfg : Config α) (s : St α) (A : Cand α) : Bool :=
  cfg.attrs.any fun a => s.rare_traits a && decide (0 < s.need_rem a) && carries A a

/-- The decision policy (source lines 112-167), evaluated after this
candidate's `seen_true` update but before any admit-side update:
fill-after-constraints short-circuit, then the ordered rule chain. -/
def decide_person {α : Type} (cfg : Config α) (s : St α) (A : Cand α) : Bool × Reason :=
  let slots_left_now : ℤ := cfg.N - (s.admitted : ℤ)
  if (cfg.attrs.map s.need_rem).sum ≤ 0 then
    (true, Reason.fill_after_constraints)
  else
    let hits := multi_trait_hits cfg s A
    let at_risk := atRiskList cfg s slots_left_now
    if !at_risk.isEmpty && !(at_risk.any fun a => carries A a) then
      (false, Reason.risk_block)
    else if overfilledHit cfg s hits then
      (false, Reason.overfill_guard)
    else if 2 ≤ hits.length then
      (true, Reason.multi_trait_boost)
    else if budgetRescue cfg s hits then
      (true, Reason.budget_rescue)
    else if rareBoost cfg s A && decide (1 ≤ hits.length) then
      (true, Reason.rare_trait_boost)
    else if 1 ≤ hits.length then
      (true, Reason.standard_help)
    else
      (false, Reason.no_help)

/-- The arrival-side state update (source lines 105-109): bump
`processed` and bump `seen_true[a]` for every constrained attribute the
candidate carries. -/
def stepSeen {α : Type} [DecidableEq α] (cfg : Config α) (s : St α) (A : Cand α) : St α :=
  { s with
    processed := s.processed + 1
    seen_true := fun a =>
      if a ∈ cfg.attrs ∧ carries A a = true then s.seen_true a + 1 else s.seen_true a }

/-- The admit-side state update (source lines 175-182): bump `admitted`;
for every constrained attribute with remaining need that the candidate
carries, decrement `need_rem[a]` (clamped at zero exactly as in the
source) and increment `admit_true[a]`. -/
def applyAccept {α : Type} [DecidableEq α] (cfg : Config α) (s : St α) (A : Cand α) : St α :=
  { s with
    admitted := s.admitted + 1
    need_rem := fun a =>
      if a ∈ cfg.attrs ∧ 0 < s.need_rem a ∧ carries A a = true then
        if s.need_rem a - 1 < 0 then 0 else s.need_rem a - 1
      else s.need_rem a
    admit_true := fun a =>
      if a ∈ cfg.attrs ∧ 0 < s.need_rem a ∧ carries A a = true then
        s.admit_true a + 1
      else s.admit_true a }

/-- One iteration of the `while` loop body for one candidate: arrival
update, decision, then the admit update when the verdict is accept.
Returns the new state together with the verdict and its reason. -/
def step {α : Type} [DecidableEq α] (cfg : Config α) (s : St α) (A : Cand α) :
    St α × Bool × Reason :=
  let s1 := stepSeen cfg s A
  let d := decide_person cfg s1 A
  (if d.1 then applyAccept cfg s1 A else s1, d)

/-- Folding the loop body over a list of candidates. -/
def runGame {α : Type} [DecidableEq α] (cfg : Config α) (s : St α) :
    List (Cand α) → St α
  | [] => s
  | A :: rest => runGame cfg (step cfg s A).1 rest

/-- The verdict trace produced while folding the loop body over a list
of candidates. -/
def runTrace {α : Type} [DecidableEq α] (cfg : Config α) (s : St α) :
    List (Cand α) → List (Bool × Reason)
  | [] => []
  | A :: rest => (step cfg s A).2 :: runTrace cfg (step cfg s A).1 rest

/-- The loop as driven by the candidate source (source line 100): each
response is either `some candidate` (status `running`, process it) or
`none` (a terminal status, which stops the loop at once). -/
def runLoop {α : Type} [DecidableEq α] (cfg : Config α) (s : St α) :
    List (Option (Cand α)) → St α
  | [] => s
  | none :: _ => s
  | some A :: rest => runLoop cfg (step cfg s A).1 rest

/-- The counter/quota relationship maintained by the loop: admits
recorded for `a` plus remaining need equal the original quota, and
remaining need never goes negative. -/
def quotaInv {α : Type} (cfg : Config α) (s : St α) : Prop :=
  ∀ a : α, (s.admit_true a : ℤ) + s.need_rem a = cfg.need_orig a ∧ 0 ≤ s.need_rem a

/-! Concrete instances used below to exercise the theorems on explicit
inputs. -/

/-- One constrained attribute with quota 1, capacity 5. -/
def cfgC1 : Config ℕ :=
  { attrs := [0], N := 5, need_orig := fun _ => 1, relF := fun _ => 1/2 }

/-- A mid-run state of `cfgC1` whose quota is already met
(`need_rem 0 = 0`, one admitted candidate carried the attribute). -/
def stC1 : St ℕ :=
  { processed := 3, admitted := 1, seen_true := fun _ => 2, admit_true := fun _ => 1,
    need_rem := fun _ => 0, rare_traits := fun _ => false }

/-- A candidate carrying every attribute. -/
def candAllTrue : Cand ℕ := fun _ => some true

/-- Two constrained attributes, quotas 2 and 3, capacity 10. -/
def cfgC2 : Config ℕ :=
  { attrs := [0, 1], N := 10, need_orig := fun a => if a = 0 then 2 else 3,
    relF := fun _ => 0 }

/-- A state of `cfgC2` where attribute 0 is heavily over-admitted
(`admit_true 0 = 5` against quota 2) while still showing remaining need. -/
def stC2 : St ℕ :=
  { processed := 0, admitted := 0, seen_true := fun _ => 10,
    admit_true := fun a => if a = 0 then 5 else 0,
    need_rem := fun a => if a = 0 then 1 else 0, rare_traits := fun _ => false }

/-- A candidate carrying exactly attribute 0 (attribute 1 missing from
the map). -/
def candC2 : Cand ℕ := fun a => if a = 0 then some true else none

/-- One constrained attribute with quota 2, capacity 4. -/
def cfgC3 : Config ℕ :=
  { attrs := [0], N := 4, need_orig := fun _ => 2, relF := fun _ => 1/2 }

/-- A short arrival sequence for `cfgC3`. -/
def candsC3 : List (Cand ℕ) := [fun _ => some true, fun _ => some false, fun _ => some true]

/-- No constraints at all, capacity 1: every candidate is admitted via
the fill-after-constraints short-circuit. -/
def cfgC4 : Config ℕ :=
  { attrs := [], N := 1, need_orig := fun _ => 0, relF := fun _ => 0 }

/-- A candidate carrying nothing. -/
def candAllFalse : Cand ℕ := fun _ => some false

/-- A state of `cfgC4` with all quotas (vacuously) met. -/
def stC6 : St ℕ :=
  { processed := 2, admitted := 1, seen_true := fun _ => 1, admit_true := fun _ => 0,
    need_rem := fun _ => 0, rare_traits := fun _ => false }

/-- A fill-phase state for `cfgC3`: both required admits done. -/
def stC6' : St ℕ :=
  { processed := 5, admitted := 2, seen_true := fun _ => 3, admit_true := fun _ => 2,
    need_rem := fun _ => 0, rare_traits := fun _ => false }

/-- Three constrained attributes; attribute 2 has a large quota. -/
def cfgC8 : Config ℕ :=
  { attrs := [0, 1, 2], N := 10, need_orig := fun a => if a = 2 then 20 else 1,
    relF := fun _ => 0 }

/-- A state of `cfgC8` where attribute 2 is deeply at risk
(`Δ[2] = 0 + 10*0 - 20 = -20 < -5`) and the others are not. -/
def stC8 : St ℕ :=
  { processed := 0, admitted := 0, seen_true := fun _ => 0, admit_true := fun _ => 0,
    need_rem := fun a => if a = 2 then 20 else 1, rare_traits := fun _ => false }

/-- A candidate carrying attributes 0 and 1 (two unmet-quota hits) but
not the at-risk attribute 2. -/
def candC8 : Cand ℕ := fun a => if a ≤ 1 then some true else some false

/-- A candidate whose map has no key for attribute 0 but carries
attribute 1. -/
def candC10 : Cand ℕ := fun a => if a = 1 then some true else none

/-- The arrival-side update leaves the quota counters untouched. -/
theorem stepSeen_need_rem {α : Type} [DecidableEq α] (cfg : Config α) (s : St α) (A : Cand α) :
    (stepSeen cfg s A).need_rem = s.need_rem := rfl

/-- The arrival-side update leaves the admit counters untouched. -/
theorem stepSeen_admit_true {α : Type} [DecidableEq α] (cfg : Config α) (s : St α) (A : Cand α) :
    (stepSeen cfg s A).admit_true = s.admit_true := rfl

/-- The arrival-side update leaves `admitted` untouched, so the decision
sees `slots_left_now = N - admitted` with the pre-decision value. -/
theorem stepSeen_admitted {α : Type} [DecidableEq α] (cfg : Config α) (s : St α) (A : Cand α) :
    (stepSeen cfg s A).admitted = s.admitted := rfl

/-- The verdict of a loop iteration is the decision taken after the
arrival-side update. -/
theorem step_snd {α : Type} [DecidableEq α] (cfg : Config α) (s : St α) (A : Cand α) :
    (step cfg s A).2 = decide_person cfg (stepSeen cfg s A) A := rfl

/-- The quota invariant survives the arrival-side update. -/
theorem quotaInv_stepSeen {α : Type} [DecidableEq α] {cfg : Config α} {s : St α} (A : Cand α)
    (h : quotaInv cfg s) : quotaInv cfg (stepSeen cfg s A) := h

/-- The quota invariant survives the admit-side update. -/
theorem quotaInv_applyAccept {α : Type} [DecidableEq α] {cfg : Config α} {s : St α} (A : Cand α)
    (h : quotaInv cfg s) : quotaInv cfg (applyAccept cfg s A) := by
  intro a
  obtain ⟨h1, h2⟩ := h a
  simp only [applyAccept]
  by_cases hc : a ∈ cfg.attrs ∧ 0 < s.need_rem a ∧ carries A a = true
  · rw [if_pos hc, if_pos hc, if_neg (by omega : ¬ s.need_rem a - 1 < 0)]
    constructor
    · push_cast
      omega
    · omega
  · rw [if_neg hc, if_neg hc]
    exact ⟨h1, h2⟩

/-- The quota invariant survives one full loop iteration. -/
theorem quotaInv_step {α : Type} [DecidableEq α] {cfg : Config α} {s : St α} (A : Cand α)
    (h : quotaInv cfg s) : quotaInv cfg (step cfg s A).1 := by
  simp only [step]
  split
  · exact quotaInv_applyAccept A (quotaInv_stepSeen A h)
  · exact quotaInv_stepSeen A h

/-- The quota invariant holds in the initial state when the quotas are
non-negative. -/
theorem quotaInv_init {α : Type} (cfg : Config α) (h0 : ∀ a, 0 ≤ cfg.need_orig a) :
    quotaInv cfg (initState cfg) := by
  intro a
  simp only [initState]
  exact ⟨by push_cast; ring, h0 a⟩

/-- The quota invariant holds in every state reachable by the loop. -/
theorem quotaInv_run {α : Type} [DecidableEq α] {cfg : Config α} {s : St α}
    (h : quotaInv cfg s) : ∀ cs : List (Cand α), quotaInv cfg (runGame cfg s cs)
  | [] => h
  | A :: rest => quotaInv_run (quotaInv_step A h) rest

/-- Under the quota invariant no hit attribute can be overfilled: every
hit still has remaining need, so its admit counter is strictly below its
quota, hence below `1.02` times it. -/
theorem overfilledHit_of_inv {α : Type} {cfg : Config α} {s : St α} (A : Cand α)
    (h : quotaInv cfg s) :
    overfilledHit cfg s (multi_trait_hits cfg s A) = false := by
  rw [overfilledHit, List.any_eq_false]
  intro a ha
  rw [multi_trait_hits, List.mem_filter, Bool.and_eq_true, decide_eq_true_iff] at ha
  obtain ⟨-, -, hrem⟩ := ha
  obtain ⟨hsum, -⟩ := h a
  simp only [Bool.and_eq_true, decide_eq_true_iff, not_and]
  intro hpos hle
  have h1 : (s.admit_true a : ℤ) ≤ cfg.need_orig a - 1 := by omega
  have h1q : (s.admit_true a : ℚ) ≤ (cfg.need_orig a : ℚ) - 1 := by exact_mod_cast h1
  have h2q : (1 : ℚ) ≤ (cfg.need_orig a : ℚ) := by exact_mod_cast hpos
  linarith

/-- Under the quota invariant the decision never returns the
`overfill_guard` reason. -/
theorem no_overfill_reason {α : Type} {cfg : Config α} {s : St α} (A : Cand α)
    (h : quotaInv cfg s) :
    (decide_person cfg s A).2 ≠ Reason.overfill_guard := by
  have hov := overfilledHit_of_inv A h
  simp only [decide_person, hov]
  split
  · simp
  · split
    · simp
    · simp only [Bool.false_eq_true, if_false]
      split
      · simp
      · split
        · simp
        · split
          · simp
          · split
            · simp
            · simp

/-- On an accept verdict the iteration's final state is the admit-side
update of the arrival-side state. -/
theorem step_fst_of_accept {α : Type} [DecidableEq α] (cfg : Config α) (s : St α) (A : Cand α)
    (hacc : (step cfg s A).2.1 = true) :
    (step cfg s A).1 = applyAccept cfg (stepSeen cfg s A) A := by
  simp only [step] at hacc ⊢
  rw [if_pos hacc]

/-- On a reject verdict the iteration's final state is just the
arrival-side state. -/
theorem step_fst_of_reject {α : Type} [DecidableEq α] (cfg : Config α) (s : St α) (A : Cand α)
    (hrej : (step cfg s A).2.1 = false) :
    (step cfg s A).1 = stepSeen cfg s A := by
  simp only [step] at hrej ⊢
  rw [if_neg]
  simp [hrej]

/-- C3: in every state the loop can reach, the admit counter of an
attribute never exceeds its original quota (it is only bumped while
`need_rem[a] > 0`); therefore for positive quotas the overfill test
`admit_true[a] >= 1.02 * need_orig[a]` can never hold, and no decision
ever returns the `overfill_guard` reason. -/
theorem claim3_overfill_guard_dead {α : Type} [DecidableEq α] (cfg : Config α)
    (h0 : ∀ a, 0 ≤ cfg.need_orig a) (cs : List (Cand α)) :
    (∀ a, ((runGame cfg (initState cfg) cs).admit_true a : ℤ) ≤ cfg.need_orig a) ∧
    (∀ a, 0 < cfg.need_orig a →
      ¬ ((102 : ℚ)/100 * (cfg.need_orig a : ℚ) ≤
          ((runGame cfg (initState cfg) cs).admit_true a : ℚ))) ∧
    (∀ A : Cand α,
      (step cfg (runGame cfg (initState cfg) cs) A).2.2 ≠ Reason.overfill_guard) := by
  have hinv := quotaInv_run (quotaInv_init cfg h0) cs
  refine ⟨?_, ?_, ?_⟩
  · intro a
    obtain ⟨h1, h2⟩ := hinv a
    omega
  · intro a hpos hle
    obtain ⟨h1, h2⟩ := hinv a
    have hb : (((runGame cfg (initState cfg) cs).admit_true a : ℤ) : ℚ) ≤
        ((cfg.need_orig a : ℤ) : ℚ) := by
      exact_mod_cast (by omega :
        ((runGame cfg (initState cfg) cs).admit_true a : ℤ) ≤ cfg.need_orig a)
    have hq : (1 : ℚ) ≤ (cfg.need_orig a : ℚ) := by exact_mod_cast hpos
    push_cast at hb
    linarith
  · intro A
    rw [step_snd]
    exact no_overfill_reason A (quotaInv_stepSeen A hinv)

/-- Witness for C3 at a concrete configuration and arrival sequence. -/
theorem claim3_witness :
    (∀ a : ℕ, 0 ≤ cfgC3.need_orig a) ∧
    ((∀ a, ((runGame cfgC3 (initState cfgC3) candsC3).admit_true a : ℤ) ≤ cfgC3.need_orig a) ∧
    (∀ a, 0 < cfgC3.need_orig a →
      ¬ ((102 : ℚ)/100 * (cfgC3.need_orig a : ℚ) ≤
          ((runGame cfgC3 (initState cfgC3) candsC3).admit_true a : ℚ))) ∧
    (∀ A : Cand ℕ,
      (step cfgC3 (runGame cfgC3 (initState cfgC3) candsC3) A).2.2 ≠ Reason.overfill_guard)) :=
  ⟨fun _ => (by decide : (0 : ℤ) ≤ 2),
    claim3_overfill_guard_dead cfgC3 (fun _ => (by decide : (0 : ℤ) ≤ 2)) candsC3⟩

/-- C5: `need_rem[a]` starts at the quota, stays within `[0, need_orig[a]]`
in every reachable state, and across one iteration it drops by exactly 1
when the candidate is admitted, carries `a`, and the need is still
positive — and is unchanged in every other case (so it never goes below
zero). -/
theorem claim5_need_rem_bounds {α : Type} [DecidableEq α] (cfg : Config α)
    (h0 : ∀ a, 0 ≤ cfg.need_orig a) (cs : List (Cand α)) (a : α) :
    (initState cfg).need_rem a = cfg.need_orig a ∧
    0 ≤ (runGame cfg (initState cfg) cs).need_rem a ∧
    (runGame cfg (initState cfg) cs).need_rem a ≤ cfg.need_orig a ∧
    ∀ A : Cand α,
      ((step cfg (runGame cfg (initState cfg) cs) A).2.1 = true →
        a ∈ cfg.attrs → 0 < (runGame cfg (initState cfg) cs).need_rem a →
        carries A a = true →
        (step cfg (runGame cfg (initState cfg) cs) A).1.need_rem a =
          (runGame cfg (initState cfg) cs).need_rem a - 1) ∧
      ((step cfg (runGame cfg (initState cfg) cs) A).2.1 = true →
        ¬ (a ∈ cfg.attrs ∧ 0 < (runGame cfg (initState cfg) cs).need_rem a ∧
            carries A a = true) →
        (step cfg (runGame cfg (initState cfg) cs) A).1.need_rem a =
          (runGame cfg (initState cfg) cs).need_rem a) ∧
      ((step cfg (runGame cfg (initState cfg) cs) A).2.1 = false →
        (step cfg (runGame cfg (initState cfg) cs) A).1.need_rem a =
          (runGame cfg (initState cfg) cs).need_rem a) := by
  have hinv := quotaInv_run (quotaInv_init cfg h0) cs
  obtain ⟨h1, h2⟩ := hinv a
  refine ⟨rfl, h2, by omega, ?_⟩
  intro A
  refine ⟨?_, ?_, ?_⟩
  · intro hacc ha hpos hcar
    rw [step_fst_of_accept cfg _ A hacc]
    simp only [applyAccept, stepSeen]
    rw [if_pos ⟨ha, hpos, hcar⟩, if_neg (by omega :
      ¬ (runGame cfg (initState cfg) cs).need_rem a - 1 < 0)]
  · intro hacc hnot
    rw [step_fst_of_accept cfg _ A hacc]
    simp only [applyAccept, stepSeen]
    rw [if_neg hnot]
  · intro hrej
    rw [step_fst_of_reject cfg _ A hrej]
    rfl

/-- Witness for C5 at a concrete configuration and arrival sequence. -/
theorem claim5_witness :
    (∀ a : ℕ, 0 ≤ cfgC3.need_orig a) ∧
    ((initState cfgC3).need_rem 0 = cfgC3.need_orig 0 ∧
    0 ≤ (runGame cfgC3 (initState cfgC3) candsC3).need_rem 0 ∧
    (runGame cfgC3 (initState cfgC3) candsC3).need_rem 0 ≤ cfgC3.need_orig 0 ∧
    ∀ A : Cand ℕ,
      ((step cfgC3 (runGame cfgC3 (initState cfgC3) candsC3) A).2.1 = true →
        0 ∈ cfgC3.attrs → 0 < (runGame cfgC3 (initState cfgC3) candsC3).need_rem 0 →
        carries A 0 = true →
        (step cfgC3 (runGame cfgC3 (initState cfgC3) candsC3) A).1.need_rem 0 =
          (runGame cfgC3 (initState cfgC3) candsC3).need_rem 0 - 1) ∧
      ((step cfgC3 (runGame cfgC3 (initState cfgC3) candsC3) A).2.1 = true →
        ¬ (0 ∈ cfgC3.attrs ∧ 0 < (runGame cfgC3 (initState cfgC3) candsC3).need_rem 0 ∧
            carries A 0 = true) →
        (step cfgC3 (runGame cfgC3 (initState cfgC3) candsC3) A).1.need_rem 0 =
          (runGame cfgC3 (initState cfgC3) candsC3).need_rem 0) ∧
      ((step cfgC3 (runGame cfgC3 (initState cfgC3) candsC3) A).2.1 = false →
        (step cfgC3 (runGame cfgC3 (initState cfgC3) candsC3) A).1.need_rem 0 =
          (runGame cfgC3 (initState cfgC3) candsC3).need_rem 0)) :=
  ⟨fun _ => (by decide : (0 : ℤ) ≤ 2),
    claim5_need_rem_bounds cfgC3 (fun _ => (by decide : (0 : ℤ) ≤ 2)) candsC3 0⟩

/-- When all remaining needs are non-negative and their total is at most
zero, each constrained attribute's remaining need is exactly zero. -/
theorem need_zero_of_sum {α : Type} (cfg : Config α) (s : St α)
    (hpos : ∀ a, 0 ≤ s.need_rem a) (hz : (cfg.attrs.map s.need_rem).sum ≤ 0) :
    ∀ a ∈ cfg.attrs, s.need_rem a = 0 := by
  intro a ha
  have hmem : s.need_rem a ∈ cfg.attrs.map s.need_rem := List.mem_map.mpr ⟨a, ha, rfl⟩
  have hall : ∀ x ∈ cfg.attrs.map s.need_rem, 0 ≤ x := by
    intro x hx
    obtain ⟨b, -, rfl⟩ := List.mem_map.mp hx
    exact hpos b
  have := List.single_le_sum hall _ hmem
  have := hpos a
  omega

/-- In a state with no remaining need anywhere, an iteration accepts
with reason `fill_after_constraints` and leaves `need_rem` untouched. -/
theorem fill_step {α : Type} [DecidableEq α] (cfg : Config α) (s : St α) (A : Cand α)
    (hpos : ∀ a, 0 ≤ s.need_rem a) (hz : (cfg.attrs.map s.need_rem).sum ≤ 0) :
    (step cfg s A).2 = (true, Reason.fill_after_constraints) ∧
    (step cfg s A).1.need_rem = s.need_rem := by
  have hdec : decide_person cfg (stepSeen cfg s A) A =
      (true, Reason.fill_after_constraints) := by
    simp only [decide_person, stepSeen_need_rem]
    rw [if_pos hz]
  have hsnd : (step cfg s A).2 = (true, Reason.fill_after_constraints) := by
    rw [step_snd, hdec]
  refine ⟨hsnd, ?_⟩
  have hacc : (step cfg s A).2.1 = true := by rw [hsnd]
  rw [step_fst_of_accept cfg s A hacc]
  funext a
  simp only [applyAccept, stepSeen_need_rem]
  have hneg : ¬ (a ∈ cfg.attrs ∧ 0 < s.need_rem a ∧ carries A a = true) := by
    intro hc
    have h0 := need_zero_of_sum cfg s hpos hz a hc.1
    have h1 := hc.2.1
    omega
  rw [if_neg hneg]

/-- C6: once the total remaining need over all constrained attributes is
zero (all quotas met), every verdict for every subsequent candidate is
accept with reason `fill_after_constraints`, for the remainder of the
run. -/
theorem claim6_fill_absorbing {α : Type} [DecidableEq α] (cfg : Config α) (s : St α)
    (hpos : ∀ a, 0 ≤ s.need_rem a) (hz : (cfg.attrs.map s.need_rem).sum = 0)
    (cs : List (Cand α)) :
    ∀ v ∈ runTrace cfg s cs, v = (true, Reason.fill_after_constraints) := by
  induction cs generalizing s with
  | nil =>
    intro v hv
    simp [runTrace] at hv
  | cons A rest ih =>
    intro v hv
    obtain ⟨h2, h1⟩ := fill_step cfg s A hpos (le_of_eq hz)
    simp only [runTrace, List.mem_cons] at hv
    rcases hv with rfl | hv
    · exact h2
    · exact ih ((step cfg s A).1)
        (by rw [h1]; exact hpos) (by rw [h1]; exact hz) v hv

/-- Witness for C6: a concrete all-quotas-met state, two further
candidates, both accepted as `fill_after_constraints`. -/
theorem claim6_witness :
    (∀ a : ℕ, 0 ≤ stC6'.need_rem a) ∧ (cfgC3.attrs.map stC6'.need_rem).sum = 0 ∧
    ∀ v ∈ runTrace cfgC3 stC6' [candAllFalse, candAllTrue],
      v = (true, Reason.fill_after_constraints) :=
  ⟨fun _ => (by decide : (0 : ℤ) ≤ 0), by decide,
    claim6_fill_absorbing cfgC3 stC6' (fun _ => (by decide : (0 : ℤ) ≤ 0)) (by decide)
      [candAllFalse, candAllTrue]⟩

/-- C1 counterexample: a concrete run state whose quota for attribute 0
is already met (`need_rem 0 = 0`).  The next candidate carries the
attribute and is accepted (via the fill-after-constraints rule), yet
`admit_true 0` does not increase by 1 — it stays at 1 — refuting the
claim that the counter increases for every accepted carrier regardless
of the remaining need. -/
theorem claim1_counterexample :
    carries candAllTrue 0 = true ∧
    (step cfgC1 stC1 candAllTrue).2.1 = true ∧
    (step cfgC1 stC1 candAllTrue).1.admit_true 0 = stC1.admit_true 0 ∧
    ¬ (step cfgC1 stC1 candAllTrue).1.admit_true 0 = stC1.admit_true 0 + 1 := by
  refine ⟨by decide, by decide, by decide, by decide⟩

/-- C1 amended: when a candidate is accepted, `admit_true[a]` (for a
constrained attribute `a`) increases by 1 exactly when the candidate
carries `a` AND `need_rem[a]` is still positive at that moment;
otherwise it is unchanged.  It therefore counts the admitted carriers of
`a` that arrived while the quota was still unmet. -/
theorem claim1_admit_true_update {α : Type} [DecidableEq α] (cfg : Config α) (s : St α)
    (A : Cand α) (a : α) (ha : a ∈ cfg.attrs)
    (hacc : (step cfg s A).2.1 = true) :
    (step cfg s A).1.admit_true a =
      s.admit_true a + (if 0 < s.need_rem a ∧ carries A a = true then 1 else 0) := by
  rw [step_fst_of_accept cfg s A hacc]
  simp only [applyAccept, stepSeen_need_rem, stepSeen_admit_true]
  by_cases hc : 0 < s.need_rem a ∧ carries A a = true
  · rw [if_pos ⟨ha, hc.1, hc.2⟩, if_pos hc]
  · rw [if_neg (fun hx => hc ⟨hx.2.1, hx.2.2⟩), if_neg hc]
    rfl

/-- Witness for the amended C1: a freshly started `cfgC1` run admits its
first carrier (via budget rescue) and the counter does increase by 1
there. -/
theorem claim1_witness :
    0 ∈ cfgC1.attrs ∧
    (step cfgC1 (initState cfgC1) candAllTrue).2.1 = true ∧
    (step cfgC1 (initState cfgC1) candAllTrue).1.admit_true 0 =
      (initState cfgC1).admit_true 0 +
        (if 0 < (initState cfgC1).need_rem 0 ∧ carries candAllTrue 0 = true then 1 else 0) := by
  have hacc : (step cfgC1 (initState cfgC1) candAllTrue).2.1 = true := by
    norm_num [step, decide_person, stepSeen, initState, multi_trait_hits, atRiskList,
      overfilledHit, budgetRescue, rareBoost, projected_deltas, carries, rareCalc,
      cfgC1, candAllTrue, List.filter, List.any, List.isEmpty]
  exact ⟨by decide, hacc,
    claim1_admit_true_update cfgC1 (initState cfgC1) candAllTrue 0 (by decide) hacc⟩

/-- C2: when not all quotas are met and the risk-block rule does not
fire, a hit attribute with `admit_true[a] >= 1.02 * need_orig[a]` forces
the verdict reject with reason `overfill_guard`, ahead of the
multi-trait, rescue, rare-trait and standard-help accept rules.  (The
hypothesis `need_rem <= need_orig` is the documented quota invariant; it
makes the hit's quota positive, as the source's guard requires.) -/
theorem claim2_overfill_guard {α : Type} (cfg : Config α) (s : St α) (A : Cand α)
    (hmon : ∀ b, s.need_rem b ≤ cfg.need_orig b)
    (hsum : ¬ (cfg.attrs.map s.need_rem).sum ≤ 0)
    (hrisk : (atRiskList cfg s (cfg.N - (s.admitted : ℤ))).isEmpty = true ∨
      ((atRiskList cfg s (cfg.N - (s.admitted : ℤ))).any fun b => carries A b) = true)
    (a : α) (ha : a ∈ multi_trait_hits cfg s A)
    (hover : (102 : ℚ)/100 * (cfg.need_orig a : ℚ) ≤ (s.admit_true a : ℚ)) :
    decide_person cfg s A = (false, Reason.overfill_guard) := by
  have hhit := ha
  rw [multi_trait_hits, List.mem_filter, Bool.and_eq_true, decide_eq_true_iff] at hhit
  obtain ⟨-, -, hrem⟩ := hhit
  have hpos : 0 < cfg.need_orig a := lt_of_lt_of_le hrem (hmon a)
  have hov : overfilledHit cfg s (multi_trait_hits cfg s A) = true := by
    rw [overfilledHit, List.any_eq_true]
    refine ⟨a, ha, ?_⟩
    rw [Bool.and_eq_true, decide_eq_true_iff, decide_eq_true_iff]
    exact ⟨hpos, hover⟩
  have hrcond : (!(atRiskList cfg s (cfg.N - (s.admitted : ℤ))).isEmpty &&
      !((atRiskList cfg s (cfg.N - (s.admitted : ℤ))).any fun b => carries A b)) = false := by
    rcases hrisk with h | h
    · simp [h]
    · simp [h]
  simp only [decide_person]
  rw [if_neg hsum, hrcond]
  simp [hov]

/-- Witness for C2 at a concrete (deliberately over-admitted) state:
attribute 0 is a hit with `admit_true = 5 >= 1.02 * 2`, the at-risk set
is empty, quotas are not all met, and the verdict is
`(false, overfill_guard)`. -/
theorem claim2_witness :
    (∀ b, stC2.need_rem b ≤ cfgC2.need_orig b) ∧
    ¬ (cfgC2.attrs.map stC2.need_rem).sum ≤ 0 ∧
    (atRiskList cfgC2 stC2 (cfgC2.N - (stC2.admitted : ℤ))).isEmpty = true ∧
    0 ∈ multi_trait_hits cfgC2 stC2 candC2 ∧
    (102 : ℚ)/100 * (cfgC2.need_orig 0 : ℚ) ≤ (stC2.admit_true 0 : ℚ) ∧
    decide_person cfgC2 stC2 candC2 = (false, Reason.overfill_guard) := by
  have hmon : ∀ b, stC2.need_rem b ≤ cfgC2.need_orig b := by
    intro b
    rcases eq_or_ne b 0 with h | h <;> simp [stC2, cfgC2, h]
  have hemp : (atRiskList cfgC2 stC2 (cfgC2.N - (stC2.admitted : ℤ))).isEmpty = true := by
    norm_num [atRiskList, projected_deltas, cfgC2, stC2, List.filter, List.isEmpty]
  have hover : (102 : ℚ)/100 * (cfgC2.need_orig 0 : ℚ) ≤ (stC2.admit_true 0 : ℚ) := by
    norm_num [cfgC2, stC2]
  exact ⟨hmon, by decide, hemp, by decide, hover,
    claim2_overfill_guard cfgC2 stC2 candC2 hmon (by decide) (Or.inl hemp) 0 (by decide) hover⟩

/-- C8: when the at-risk set (computed with `slots_left = N - admitted`)
is non-empty and the candidate carries none of its attributes, the
verdict is reject with reason `risk_block`, ahead of every accept rule —
even for a candidate with two or more unmet-quota hits.  (Non-negative
needs, frequencies and remaining slots are the run's documented
operating conditions; they rule out the fill-after-constraints
short-circuit, which in the source precedes this rule but can only fire
when no attribute is at risk.) -/
theorem claim8_risk_block {α : Type} (cfg : Config α) (s : St α) (A : Cand α)
    (hrem : ∀ b, 0 ≤ s.need_rem b)
    (hp : ∀ b, 0 ≤ cfg.relF b)
    (hslots : 0 ≤ cfg.N - (s.admitted : ℤ))
    (hne : atRiskList cfg s (cfg.N - (s.admitted : ℤ)) ≠ [])
    (hmiss : ∀ b ∈ atRiskList cfg s (cfg.N - (s.admitted : ℤ)), carries A b = false) :
    decide_person cfg s A = (false, Reason.risk_block) := by
  obtain ⟨a, ha⟩ := List.exists_mem_of_ne_nil _ hne
  have ha' := ha
  rw [atRiskList, List.mem_filter, decide_eq_true_iff, projected_deltas] at ha'
  obtain ⟨hmem, hdelta⟩ := ha'
  have hseen : (0 : ℚ) ≤ (s.seen_true a : ℚ) := by positivity
  have hsl : (0 : ℚ) ≤ ((cfg.N - (s.admitted : ℤ) : ℤ) : ℚ) := by exact_mod_cast hslots
  have hprod : (0 : ℚ) ≤ ((cfg.N - (s.admitted : ℤ) : ℤ) : ℚ) * cfg.relF a :=
    mul_nonneg hsl (hp a)
  have hbig : (5 : ℚ) < (s.need_rem a : ℚ) := by linarith
  have hbigz : (5 : ℤ) < s.need_rem a := by exact_mod_cast hbig
  have hsum : ¬ (cfg.attrs.map s.need_rem).sum ≤ 0 := by
    have hmemmap : s.need_rem a ∈ cfg.attrs.map s.need_rem :=
      List.mem_map.mpr ⟨a, hmem, rfl⟩
    have hall : ∀ x ∈ cfg.attrs.map s.need_rem, 0 ≤ x := by
      intro x hx
      obtain ⟨b, -, rfl⟩ := List.mem_map.mp hx
      exact hrem b
    have := List.single_le_sum hall _ hmemmap
    omega
  have hemp : (atRiskList cfg s (cfg.N - (s.admitted : ℤ))).isEmpty = false := by
    rw [Bool.eq_false_iff]
    intro h
    exact hne (List.isEmpty_iff.mp h)
  have hany : ((atRiskList cfg s (cfg.N - (s.admitted : ℤ))).any fun b => carries A b) =
      false := by
    rw [List.any_eq_false]
    intro b hb
    rw [hmiss b hb]
    exact Bool.false_ne_true
  simp only [decide_person]
  rw [if_neg hsum, hemp, hany]
  rfl

/-- Witness for C8: attribute 2 of `cfgC8` is deeply at risk, the
candidate carries attributes 0 and 1 (two unmet-quota hits) but not 2,
and the verdict is `(false, risk_block)`. -/
theorem claim8_witness :
    (∀ b, 0 ≤ stC8.need_rem b) ∧
    (0 ≤ cfgC8.N - (stC8.admitted : ℤ)) ∧
    atRiskList cfgC8 stC8 (cfgC8.N - (stC8.admitted : ℤ)) ≠ [] ∧
    (∀ b ∈ atRiskList cfgC8 stC8 (cfgC8.N - (stC8.admitted : ℤ)), carries candC8 b = false) ∧
    2 ≤ (multi_trait_hits cfgC8 stC8 candC8).length ∧
    decide_person cfgC8 stC8 candC8 = (false, Reason.risk_block) := by
  have hsetz : atRiskList cfgC8 stC8 (cfgC8.N - (stC8.admitted : ℤ)) = [2] := by
    norm_num [atRiskList, projected_deltas, cfgC8, stC8, List.filter]
  have hrem : ∀ b, 0 ≤ stC8.need_rem b := by
    intro b
    rcases eq_or_ne b 2 with h | h <;> simp [stC8, h]
  have hne : atRiskList cfgC8 stC8 (cfgC8.N - (stC8.admitted : ℤ)) ≠ [] := by
    rw [hsetz]
    exact List.cons_ne_nil 2 []
  have hmiss : ∀ b ∈ atRiskList cfgC8 stC8 (cfgC8.N - (stC8.admitted : ℤ)),
      carries candC8 b = false := by
    rw [hsetz]
    intro b hb
    rw [List.mem_singleton] at hb
    subst hb
    decide
  exact ⟨hrem, by decide, hne, hmiss, by decide,
    claim8_risk_block cfgC8 stC8 candC8 hrem
      (fun b => le_refl 0) (by decide) hne hmiss⟩

/-- C7: the projected deficit is computed exactly as
`seenTrue[a] + slotsLeft * p[a] - needRemaining[a]`; an attribute is in
the at-risk set iff it is constrained and its delta is strictly below
the default tolerance `-5`; and within a loop iteration the decision
(hence its at-risk set, built from `slots_left_now = N - admitted`) is
evaluated with `admitted` still at its pre-decision value. -/
theorem claim7_deltas_at_risk {α : Type} [DecidableEq α] (cfg : Config α) (s : St α)
    (slots : ℤ) (a : α) (A : Cand α) :
    projected_deltas cfg s slots a =
      (s.seen_true a : ℚ) + (slots : ℚ) * cfg.relF a - (s.need_rem a : ℚ) ∧
    (a ∈ atRiskList cfg s slots ↔
      a ∈ cfg.attrs ∧ projected_deltas cfg s slots a < -5) ∧
    (step cfg s A).2 = decide_person cfg (stepSeen cfg s A) A ∧
    (stepSeen cfg s A).admitted = s.admitted := by
  refine ⟨rfl, ?_, rfl, rfl⟩
  simp [atRiskList, List.mem_filter]

/-- One loop iteration never touches the rare-trait set. -/
theorem step_rare_traits {α : Type} [DecidableEq α] (cfg : Config α) (s : St α) (A : Cand α) :
    (step cfg s A).1.rare_traits = s.rare_traits := by
  simp only [step]
  split <;> rfl

/-- No run of the loop ever touches the rare-trait set. -/
theorem runGame_rare_traits {α : Type} [DecidableEq α] (cfg : Config α) :
    ∀ (cs : List (Cand α)) (s : St α), (runGame cfg s cs).rare_traits = s.rare_traits
  | [], _ => rfl
  | A :: rest, s =>
    (runGame_rare_traits cfg rest (step cfg s A).1).trans (step_rare_traits cfg s A)

/-- C9: an attribute is classified rare at game start exactly when
`p[a] <= 0.10` or `need_orig[a] / N >= 0.9 * p[a]`, and the rare set is
never mutated afterwards: after any arrival sequence it is still the
initial one, which is exactly `rareCalc`. -/
theorem claim9_rarity {α : Type} [DecidableEq α] (cfg : Config α) (cs : List (Cand α))
    (a : α) :
    (rareCalc cfg a = true ↔
      (cfg.relF a ≤ 1/10 ∨
        (cfg.need_orig a : ℚ) / (cfg.N : ℚ) ≥ (9 : ℚ)/10 * cfg.relF a)) ∧
    (runGame cfg (initState cfg) cs).rare_traits = (initState cfg).rare_traits ∧
    (initState cfg).rare_traits = fun b => rareCalc cfg b := by
  refine ⟨?_, runGame_rare_traits cfg cs (initState cfg), rfl⟩
  rw [rareCalc]
  by_cases hp : cfg.relF a ≤ 1/10
  · rw [if_pos hp]
    exact ⟨fun _ => Or.inl hp, fun _ => rfl⟩
  · have hp0 : 0 < cfg.relF a := by
      push_neg at hp
      have : (0 : ℚ) < 1/10 := by norm_num
      linarith
    rw [if_neg hp]
    simp only [Bool.and_eq_true, decide_eq_true_iff, ge_iff_le]
    constructor
    · rintro ⟨-, h⟩
      exact Or.inr h
    · rintro (h | h)
      · exact absurd h hp
      · exact ⟨hp0, h⟩

/-- Two candidate maps that read the same through `.get(a, False)` drive
one loop iteration identically. -/
theorem step_carries_congr {α : Type} [DecidableEq α] (cfg : Config α) (s : St α)
    {A B : Cand α} (h : carries A = carries B) : step cfg s A = step cfg s B := by
  unfold step decide_person stepSeen applyAccept multi_trait_hits rareBoost
  rw [h]

/-- C10: a candidate map with a missing key for a constrained attribute
`a` is processed exactly as if it mapped `a` to `false` — the whole
iteration (hit computation, at-risk matching, rarity boost, decision and
all state updates) is unchanged by inserting the explicit `false`, no
error is possible (the step is a total function), and no counter for `a`
moves. -/
theorem claim10_missing_key {α : Type} [DecidableEq α] (cfg : Config α) (s : St α)
    (A : Cand α) (a : α) (h : A a = none) :
    step cfg s (fun x => if x = a then some false else A x) = step cfg s A ∧
    (step cfg s A).1.seen_true a = s.seen_true a ∧
    (step cfg s A).1.admit_true a = s.admit_true a ∧
    (step cfg s A).1.need_rem a = s.need_rem a := by
  have hca : carries A a = false := by simp [carries, h]
  have hfun : carries (fun x => if x = a then some false else A x) = carries A := by
    funext x
    by_cases hx : x = a
    · subst hx
      simp [carries, h]
    · simp [carries, hx]
  have hnc : ¬ (a ∈ cfg.attrs ∧ carries A a = true) := by
    intro hc
    rw [hca] at hc
    exact Bool.false_ne_true hc.2
  have hnc3 : ¬ (a ∈ cfg.attrs ∧ 0 < s.need_rem a ∧ carries A a = true) := by
    intro hc
    rw [hca] at hc
    exact Bool.false_ne_true hc.2.2
  have hseen1 : (stepSeen cfg s A).seen_true a = s.seen_true a := by
    simp only [stepSeen]
    rw [if_neg hnc]
  refine ⟨step_carries_congr cfg s hfun, ?_, ?_, ?_⟩
  all_goals by_cases hd : (step cfg s A).2.1 = true
  · rw [step_fst_of_accept cfg s A hd]
    simp only [applyAccept]
    exact hseen1
  · rw [step_fst_of_reject cfg s A (Bool.eq_false_iff.mpr hd)]
    exact hseen1
  · rw [step_fst_of_accept cfg s A hd]
    simp only [applyAccept, stepSeen_admit_true, stepSeen_need_rem]
    rw [if_neg hnc3]
  · rw [step_fst_of_reject cfg s A (Bool.eq_false_iff.mpr hd)]
    rfl
  · rw [step_fst_of_accept cfg s A hd]
    simp only [applyAccept, stepSeen_need_rem]
    rw [if_neg hnc3]
  · rw [step_fst_of_reject cfg s A (Bool.eq_false_iff.mpr hd)]
    rfl

/-- Witness for C10: `candC10` has no key for attribute 0 of `cfgC2`;
the iteration at `stC8`-like fresh state treats it as `false`. -/
theorem claim10_witness :
    candC10 0 = none ∧
    step cfgC2 (initState cfgC2) (fun x => if x = 0 then some false else candC10 x) =
      step cfgC2 (initState cfgC2) candC10 ∧
    (step cfgC2 (initState cfgC2) candC10).1.seen_true 0 = (initState cfgC2).seen_true 0 ∧
    (step cfgC2 (initState cfgC2) candC10).1.admit_true 0 = (initState cfgC2).admit_true 0 ∧
    (step cfgC2 (initState cfgC2) candC10).1.need_rem 0 = (initState cfgC2).need_rem 0 :=
  ⟨rfl, claim10_missing_key cfgC2 (initState cfgC2) candC10 0 rfl⟩

/-- C4 counterexample: the loop's continuation condition is the source's
status, not `slotsLeft`.  With no constraints and capacity `N = 1`, the
first candidate is admitted, so `admitted == N` and `slotsLeft == 0`;
yet when the source still reports `running`, the loop processes (and
even admits) a second candidate, pushing `admitted` to `2 > N`. -/
theorem claim4_counterexample :
    cfgC4.N = 1 ∧
    (runLoop cfgC4 (initState cfgC4) [some candAllFalse]).admitted = 1 ∧
    (runLoop cfgC4 (initState cfgC4) [some candAllFalse, some candAllFalse]).processed = 2 ∧
    (runLoop cfgC4 (initState cfgC4) [some candAllFalse, some candAllFalse]).admitted = 2 :=
  ⟨rfl, by decide, by decide, by decide⟩

/-- C4 amended: the loop stops exactly at the first terminal response of
the candidate source and processes nothing beyond it; it performs no
local `slotsLeft == 0` check, so the run terminates at `admitted == N`
only when the source reports a terminal status there. -/
theorem claim4_stop_at_terminal {α : Type} [DecidableEq α] (cfg : Config α) :
    ∀ (rs : List (Option (Cand α))) (s : St α) (rs' : List (Option (Cand α))),
      (∀ r ∈ rs, r ≠ none) →
      runLoop cfg s (rs ++ none :: rs') = runLoop cfg s rs
  | [], _, _, _ => rfl
  | none :: t, _, _, h => absurd rfl (h none (List.mem_cons_self none t))
  | some A :: t, s, rs', h =>
    claim4_stop_at_terminal cfg t (step cfg s A).1 rs'
      (fun x hx => h x (List.mem_cons_of_mem _ hx))

/-- Witness for the amended C4: one running response, then a terminal
one; the run ignores everything after the terminal response. -/
theorem claim4_witness :
    (∀ r ∈ [some candAllFalse], r ≠ none) ∧
    runLoop cfgC4 (initState cfgC4) ([some candAllFalse] ++ none :: [some candAllFalse]) =
      runLoop cfgC4 (initState cfgC4) [some candAllFalse] :=
  ⟨by simp, claim4_stop_at_terminal cfgC4 [some candAllFalse] (initState cfgC4)
    [some candAllFalse] (by simp)⟩
